import Mathlib

/-!
Verification of the sveltekit-convex starter repository.

The admin pages (src/routes/admin/new/+page.svelte and
src/routes/admin/edit/[id]/+page.svelte) contain a slugify helper which is
embedded directly.  The Convex posts module (the queries and mutations
slugExists, listPublished, getBySlug, listAll, getById, create, update and
remove) is embedded from the staged source file src/src/convex/auth.ts, whose
third document is the posts module called by the routes as api.posts; the
table schema comes from src/src/convex/schema.ts.

Embedding conventions: document ids are naturals handed out by an insertion
counter, Date.now() is a natural passed to each mutation (the two Date.now()
calls inside update are the same instant), the first() lookup on the by_slug
index is the first match in insertion order, the descending index reads are
an insertion sort on the index key, and the opaque pagination cursor string
is modelled as the index position it encodes (null is none).
-/
namespace SvelteConvex

/-! ## The slugify helper, embedded from the admin pages

Source (identical in both admin pages):

  function slugify(text: string): string \x7b
    return text
      .toLowerCase()
      .trim()
      .replace(/[^\w\s-]/g, "")
      .replace(/[\s_-]+/g, "-")
      .replace(/^-+|-+$/g, "");
  \x7d

We model JavaScript strings as lists of characters.  `toLowerCase` is modelled
on the ASCII range (the only range that matters for the character classes
involved: every character kept by the `[^\w\s-]` filter is ASCII).
-/

/-- ASCII lowercasing, modelling String.prototype.toLowerCase on the ASCII
range; this is exactly the core Char.toLower. -/
def jsLower (c : Char) : Char :=
  c.toLower

/-- Membership in the JavaScript regex class \s, restricted to its ASCII
members: space, tab, line feed, carriage return, vertical tab, form feed. -/
def isJsSpace (c : Char) : Bool :=
  c.toNat == 32 || c.toNat == 9 || c.toNat == 10 ||
    c.toNat == 13 || c.toNat == 11 || c.toNat == 12

/-- Membership in the JavaScript regex class \w, that is [A-Za-z0-9_]. -/
def isWordChar (c : Char) : Bool :=
  (97 ≤ c.toNat && c.toNat ≤ 122) || (65 ≤ c.toNat && c.toNat ≤ 90) ||
    (48 ≤ c.toNat && c.toNat ≤ 57) || c.toNat == 95

/-- Membership in the class [\s_-] whose runs are collapsed to a single hyphen. -/
def isSep (c : Char) : Bool :=
  isJsSpace c || c.toNat == 95 || c.toNat == 45

/-- String.prototype.trim: drop ASCII whitespace from both ends. -/
def jsTrim (l : List Char) : List Char :=
  ((l.dropWhile isJsSpace).reverse.dropWhile isJsSpace).reverse

/-- replace(/[\s_-]+/g, "-"): each maximal run of separators becomes one hyphen.
The flag records whether we are inside a separator run already replaced. -/
def collapseSeps : Bool → List Char → List Char
  | _, [] => []
  | inRun, c :: rest =>
    if isSep c then
      if inRun then collapseSeps true rest
      else '-' :: collapseSeps true rest
    else c :: collapseSeps false rest

/-- replace(/^-+|-+$/g, ""): strip leading and trailing hyphen runs. -/
def stripEdgeHyphens (l : List Char) : List Char :=
  (((l.dropWhile fun c => c == '-').reverse.dropWhile fun c => c == '-')).reverse

/-- The slugify function of the admin pages, on lists of characters. -/
def slugifyChars (l : List Char) : List Char :=
  stripEdgeHyphens
    (collapseSeps false
      ((jsTrim (l.map jsLower)).filter fun c => isWordChar c || isJsSpace c || c == '-'))

/-- The slugify function of the admin pages. -/
def slugify (s : String) : String :=
  ⟨slugifyChars s.data⟩

/-- A character allowed in a URL-safe slug: lowercase ASCII letter, digit or
hyphen. -/
def isSlugChar (c : Char) : Bool :=
  (97 ≤ c.toNat && c.toNat ≤ 122) || (48 ≤ c.toNat && c.toNat ≤ 57) || c.toNat == 45

/-- True when the list does not start with a hyphen. -/
def headNotHyphen (l : List Char) : Bool :=
  match l.head? with
  | some c => c != '-'
  | none => true

/-- True when no two consecutive characters are both hyphens. -/
def noAdjHyphens : List Char → Bool
  | [] => true
  | [_] => true
  | a :: b :: rest => !(a == '-' && b == '-') && noAdjHyphens (b :: rest)

/-- URL safety of a slug, as the spec describes it: only lowercase ASCII
letters, digits and hyphens, no leading hyphen, no trailing hyphen, and no two
consecutive hyphens. -/
def urlSafe (l : List Char) : Bool :=
  l.all isSlugChar && headNotHyphen l && headNotHyphen l.reverse && noAdjHyphens l
/-! ## The posts table and its operations, embedded from the posts module -/

/-- A document of the posts table: the fields of src/convex/schema.ts plus the
_creationTime system field. -/
structure Post where
  creationTime : Nat
  title : String
  slug : String
  content : String
  excerpt : String
  published : Bool
  publishedAt : Option Nat
  createdAt : Nat
  updatedAt : Nat
  authorId : Option String
  tags : Option (List String)
deriving DecidableEq

/-- The posts table: documents keyed by id, in insertion order, together with
the next fresh id. -/
structure DB where
  posts : List (Nat × Post)
  nextId : Nat
deriving DecidableEq

/-- The empty posts table. -/
def emptyDB : DB := ⟨[], 0⟩

/-- The slugExists helper of the posts module: the first document of the
by_slug index with the given slug; absent means false, a match that is the
excluded id means false, any other match means true. -/
def slugExists (db : DB) (slug : String) (excludeId : Option Nat) : Bool :=
  match db.posts.find? fun e => e.2.slug == slug with
  | none => false
  | some existing =>
    match excludeId with
    | some ex => !(existing.1 == ex)
    | none => true

/-- Arguments of posts.create. -/
structure CreateArgs where
  title : String
  slug : String
  content : String
  excerpt : String
  published : Bool
  tags : Option (List String)
deriving DecidableEq

/-- The document posts.create inserts: publishedAt is the current time exactly
when created already published, createdAt and updatedAt are the current time,
tags defaults to the empty array, and authorId is never set. -/
def newPost (a : CreateArgs) (now : Nat) : Post :=
  { creationTime := now, title := a.title, slug := a.slug, content := a.content,
    excerpt := a.excerpt, published := a.published,
    publishedAt := if a.published then some now else none,
    createdAt := now, updatedAt := now, authorId := none,
    tags := some (a.tags.getD []) }

/-- The ctx.db.insert step of posts.create: append the new document under a
fresh id. -/
def insertPost (db : DB) (a : CreateArgs) (now : Nat) : DB :=
  ⟨db.posts ++ [(db.nextId, newPost a now)], db.nextId + 1⟩

/-- posts.create: the slugExists read, then the throw or the insert, returning
the new document id. -/
def create (db : DB) (a : CreateArgs) (now : Nat) : Except String (DB × Nat) :=
  if slugExists db a.slug none then .error "A post with this slug already exists"
  else .ok (insertPost db a now, db.nextId)

/-- Arguments of posts.update: all fields but the id are optional. -/
structure UpdateArgs where
  id : Nat
  title : Option String
  slug : Option String
  content : Option String
  excerpt : Option String
  published : Option Bool
  tags : Option (List String)
deriving DecidableEq

/-- posts.getById, which is ctx.db.get: the document with the given id, null
when there is none. -/
def getById (db : DB) (i : Nat) : Option (Nat × Post) :=
  db.posts.find? fun e => e.1 == i

/-- The condition updates.published && !existingPost.published of posts.update
under JavaScript truthiness: the update publishes a currently unpublished
post. -/
def publishesNow (a : UpdateArgs) (ex : Post) : Bool :=
  (a.published == some true) && !ex.published

/-- The patchData of posts.update applied to the stored document: provided
fields overwrite, updatedAt becomes the current time, and publishedAt is set
to the current time exactly when the update publishes an unpublished post. -/
def patchPost (p : Post) (a : UpdateArgs) (setPub : Bool) (now : Nat) : Post :=
  { p with
    title := a.title.getD p.title,
    slug := a.slug.getD p.slug,
    content := a.content.getD p.content,
    excerpt := a.excerpt.getD p.excerpt,
    published := a.published.getD p.published,
    tags := match a.tags with | some t => some t | none => p.tags,
    updatedAt := now,
    publishedAt := if setPub then some now else p.publishedAt }

/-- The duplicate-slug guard of posts.update, which throws only when
updates.slug is truthy (provided and nonempty), differs from the stored slug,
and slugExists excluding the post itself reports a clash.  In particular a
provided empty-string slug skips the guard entirely. -/
def slugCheckFails (db : DB) (a : UpdateArgs) (ex : Nat × Post) : Bool :=
  match a.slug with
  | none => false
  | some s => !(s == "") && !(s == ex.2.slug) && slugExists db s (some a.id)

/-- posts.update: throw when the id is unknown, throw when the duplicate-slug
guard fires, otherwise patch the document and return its id. -/
def update (db : DB) (a : UpdateArgs) (now : Nat) : Except String (DB × Nat) :=
  match getById db a.id with
  | none => .error "Post not found"
  | some ex =>
    if slugCheckFails db a ex then .error "A post with this slug already exists"
    else
      .ok (⟨db.posts.map fun e =>
              if e.1 == a.id then (e.1, patchPost e.2 a (publishesNow a ex.2) now) else e,
            db.nextId⟩, a.id)

/-- posts.remove: an unconditional ctx.db.delete of the document with the
given id. -/
def remove (db : DB) (i : Nat) : DB :=
  ⟨db.posts.filter fun e => e.1 != i, db.nextId⟩

/-- Insert a document into a list sorted descending by the given key. -/
def insertDescBy (key : Nat × Post → Nat) (e : Nat × Post) :
    List (Nat × Post) → List (Nat × Post)
  | [] => [e]
  | x :: xs => if key x ≤ key e then e :: x :: xs else x :: insertDescBy key e xs

/-- Sort documents descending by the given key. -/
def sortDescBy (key : Nat × Post → Nat) (l : List (Nat × Post)) : List (Nat × Post) :=
  l.foldr (insertDescBy key) []

/-- The by_published index read in descending order. -/
def sortByPublishedAtDesc (l : List (Nat × Post)) : List (Nat × Post) :=
  sortDescBy (fun e => e.2.publishedAt.getD 0) l

/-- The by_created index read in descending order. -/
def sortByCreatedAtDesc (l : List (Nat × Post)) : List (Nat × Post) :=
  sortDescBy (fun e => e.2.createdAt) l

/-- The listing projection returned by posts.listPublished: every field of the
document except the large content field (and the never-set authorId). -/
structure PostSummary where
  id : Nat
  creationTime : Nat
  title : String
  slug : String
  excerpt : String
  publishedAt : Option Nat
  createdAt : Nat
  tags : Option (List String)
deriving DecidableEq

/-- Project a stored document to its listing summary. -/
def summarize (e : Nat × Post) : PostSummary :=
  { id := e.1, creationTime := e.2.creationTime, title := e.2.title,
    slug := e.2.slug, excerpt := e.2.excerpt, publishedAt := e.2.publishedAt,
    createdAt := e.2.createdAt, tags := e.2.tags }

/-- posts.listPublished: the published documents from the by_published index,
newest first, truncated to the limit (absent defaults to 20), projected to the
listing summary. -/
def listPublished (db : DB) (limit : Option Nat) : List PostSummary :=
  (((sortByPublishedAtDesc (db.posts.filter fun e => e.2.published)).take
    (limit.getD 20)).map summarize)

/-- posts.getBySlug: the first document of the by_slug index with the slug,
null when absent and null when the document is not published. -/
def getBySlug (db : DB) (s : String) : Option (Nat × Post) :=
  match db.posts.find? fun e => e.2.slug == s with
  | none => none
  | some e => if e.2.published then some e else none

/-- The paginationOpts argument of posts.listAll; the opaque cursor string is
modelled as the index position it encodes, null as none. -/
structure PaginationOpts where
  numItems : Nat
  cursor : Option Nat
deriving DecidableEq

/-- One page of a paginated query. -/
structure PaginationResult where
  page : List (Nat × Post)
  isDone : Bool
  continueCursor : Nat
deriving DecidableEq

/-- posts.listAll: cursor pagination over the by_created index read in
descending order. -/
def listAll (db : DB) (opts : PaginationOpts) : PaginationResult :=
  let sorted := sortByCreatedAtDesc db.posts
  let start := opts.cursor.getD 0
  let page := (sorted.drop start).take opts.numItems
  ⟨page, decide (sorted.length ≤ start + opts.numItems), start + page.length⟩

/-! ## Sequential histories of mutations -/

/-- One sequential mutation call against the posts table. -/
inductive Op where
  | create (a : CreateArgs) (now : Nat)
  | update (a : UpdateArgs) (now : Nat)
  | remove (i : Nat)

/-- Apply a mutation; a thrown error leaves the table unchanged. -/
def applyOp (db : DB) : Op → DB
  | .create a now =>
    match create db a now with
    | .ok (db2, _) => db2
    | .error _ => db
  | .update a now =>
    match update db a now with
    | .ok (db2, _) => db2
    | .error _ => db
  | .remove i => remove db i

/-- Run a sequential history of mutations from the empty table. -/
def run (ops : List Op) : DB :=
  ops.foldl applyOp emptyDB

/-- The history restriction under which slug uniqueness is maintained: no
update call supplies the empty string as its slug argument (a provided empty
slug is falsy in JavaScript, so the duplicate-slug guard is skipped while the
patch still writes the slug). -/
def noEmptySlugUpdate : Op → Bool
  | .update a _ => !(a.slug == some "")
  | _ => true

/-- The invariant maintained by the mutations on such histories: ids are
pairwise distinct and below the insertion counter, and slugs are pairwise
distinct. -/
def Inv (db : DB) : Prop :=
  (db.posts.map (·.1)).Nodup ∧ (∀ e ∈ db.posts, e.1 < db.nextId) ∧
    (db.posts.map (·.2.slug)).Nodup

/-! ## Two concurrent posts.create calls

The spec states that the slug-uniqueness check is a read-then-write pattern
that is not transactionally safe against concurrent creation of the same slug.
The handler of posts.create is the slugExists read followed by the
ctx.db.insert write; we let a schedule interleave those steps of two
transactions.
-/

/-- An atomic step of one of two concurrent posts.create transactions. -/
inductive CAction where
  | check1
  | check2
  | insert1
  | insert2

/-- The shared database plus the outcome each transaction observed for its
slug check (whether the slug was free when it looked). -/
structure CState where
  db : DB
  ok1 : Bool
  ok2 : Bool
deriving DecidableEq

/-- Execute one atomic step: a check reads the current table through
slugExists, an insert writes the new document exactly when the check of the
same transaction had passed. -/
def stepC (a1 a2 : CreateArgs) (now : Nat) (s : CState) : CAction → CState
  | .check1 => { s with ok1 := !slugExists s.db a1.slug none }
  | .check2 => { s with ok2 := !slugExists s.db a2.slug none }
  | .insert1 => if s.ok1 then { s with db := insertPost s.db a1 now } else s
  | .insert2 => if s.ok2 then { s with db := insertPost s.db a2 now } else s

/-- Run an interleaving of the steps of the two transactions. -/
def runConcurrent (a1 a2 : CreateArgs) (now : Nat) (db : DB) (sched : List CAction) : CState :=
  sched.foldl (stepC a1 a2 now) ⟨db, false, false⟩

/-! ## Sample data used by counterexamples and witnesses -/

/-- Sample posts.create arguments with a given slug and published flag. -/
def cArgs (s : String) (pub : Bool) : CreateArgs :=
  ⟨"t", s, "c", "e", pub, none⟩

/-- Sample posts.update arguments providing only the published flag. -/
def uArgsPub (i : Nat) (pub : Bool) : UpdateArgs :=
  ⟨i, none, none, none, none, some pub, none⟩

/-- Sample posts.update arguments providing only the slug. -/
def uArgsSlug (i : Nat) (s : String) : UpdateArgs :=
  ⟨i, none, some s, none, none, none, none⟩

/-- A table holding one published and one unpublished post. -/
def dbTwo : DB :=
  run [.create (cArgs "a" true) 1, .create (cArgs "b" false) 2]

/-- A table created by one already-published posts.create call. -/
def dbPub : DB :=
  run [.create (cArgs "s" true) 1]

/-- A table holding a single never-published draft. -/
def dbDraft : DB :=
  run [.create (cArgs "s" false) 1]

/-- The draft table after the update that first publishes the draft. -/
def dbDraftPub : DB :=
  applyOp dbDraft (.update (uArgsPub 0 true) 4)

/-- The published table after the update that saves it back as a draft. -/
def dbRepub : DB :=
  applyOp dbPub (.update (uArgsPub 0 false) 3)

/-- A history whose final update writes the empty-string slug onto a second
post, bypassing the duplicate-slug guard. -/
def opsDupSlug : List Op :=
  [.create (cArgs "" true) 1, .create (cArgs "b" true) 2, .update (uArgsSlug 1 "") 3]

/-- A history without empty-string slug updates. -/
def opsGood : List Op :=
  [.create (cArgs "a" true) 1, .create (cArgs "b" false) 2, .update (uArgsSlug 0 "z") 3]

deriving instance DecidableEq for Except
/-! ## Character-level lemmas for slugify -/

theorem toNat_ofNat_valid (n : Nat) (h : n < 55296) : (Char.ofNat n).toNat = n := by
  have hv : n.isValidChar := Or.inl h
  simp [Char.ofNat, hv, Char.ofNatAux, Char.toNat, UInt32.toNat, BitVec.ofNatLt]

theorem char_eq_iff_toNat (c d : Char) : c = d ↔ c.toNat = d.toNat := by
  constructor
  · rintro rfl
    rfl
  · intro h
    have h1 := Char.ofNat_toNat c
    rw [h] at h1
    exact h1.symm.trans (Char.ofNat_toNat d)

theorem toNat_jsLower (c : Char) :
    (jsLower c).toNat = if 65 ≤ c.toNat ∧ c.toNat ≤ 90 then c.toNat + 32 else c.toNat := by
  unfold jsLower Char.toLower
  by_cases h : 65 ≤ c.toNat ∧ c.toNat ≤ 90
  · rw [if_pos h, if_pos ⟨h.1, h.2⟩]
    exact toNat_ofNat_valid _ (by omega)
  · rw [if_neg h, if_neg h]

theorem jsLower_not_upper (c : Char) :
    ¬(65 ≤ (jsLower c).toNat ∧ (jsLower c).toNat ≤ 90) := by
  rw [toNat_jsLower]
  split
  case isTrue h => omega
  case isFalse h => exact h

theorem kept_slug_or_sep (d : Char)
    (h : (isWordChar (jsLower d) || isJsSpace (jsLower d) || (jsLower d == '-')) = true) :
    isSlugChar (jsLower d) = true ∨ isSep (jsLower d) = true := by
  have hnu := jsLower_not_upper d
  simp only [isWordChar, isJsSpace, isSlugChar, isSep, Bool.or_eq_true, Bool.and_eq_true,
    decide_eq_true_eq, beq_iff_eq, char_eq_iff_toNat] at h ⊢
  have hh : ('-').toNat = 45 := rfl
  rw [hh] at h
  omega

/-! ## List-level lemmas for slugify -/

theorem mem_jsTrim {l : List Char} {c : Char} (h : c ∈ jsTrim l) : c ∈ l := by
  unfold jsTrim at h
  rw [List.mem_reverse] at h
  have h1 := (List.dropWhile_sublist _).subset h
  rw [List.mem_reverse] at h1
  exact (List.dropWhile_sublist _).subset h1

theorem filtered_slug_or_sep {l : List Char} {c : Char}
    (h : c ∈ (jsTrim (l.map jsLower)).filter
      fun c => isWordChar c || isJsSpace c || c == '-') :
    isSlugChar c = true ∨ isSep c = true := by
  rw [List.mem_filter] at h
  obtain ⟨hm, hk⟩ := h
  have hm2 := mem_jsTrim hm
  rw [List.mem_map] at hm2
  obtain ⟨d, _, rfl⟩ := hm2
  exact kept_slug_or_sep d hk

theorem isSlugChar_hyphen : isSlugChar '-' = true := by decide

theorem isSep_hyphen : isSep '-' = true := by decide

theorem ne_hyphen_of_not_sep {c : Char} (h : isSep c = false) : c ≠ '-' := by
  intro hc
  rw [hc, isSep_hyphen] at h
  cases h

theorem mem_collapseSeps {l : List Char} (hl : ∀ c ∈ l, isSlugChar c = true ∨ isSep c = true) :
    ∀ b, ∀ c ∈ collapseSeps b l, isSlugChar c = true := by
  induction l with
  | nil =>
    intro b c hc
    simp [collapseSeps] at hc
  | cons d rest ih =>
    intro b c hc
    have hrest : ∀ c ∈ rest, isSlugChar c = true ∨ isSep c = true :=
      fun c hc2 => hl c (List.mem_cons_of_mem _ hc2)
    simp only [collapseSeps] at hc
    split at hc
    · split at hc
      · exact ih hrest true c hc
      · rcases List.mem_cons.mp hc with rfl | hc2
        · exact isSlugChar_hyphen
        · exact ih hrest true c hc2
    · rcases List.mem_cons.mp hc with rfl | hc2
      · rcases hl c (List.mem_cons_self _ _) with hs | hsep
        · exact hs
        · next hns => rw [hsep] at hns; cases hns rfl
      · exact ih hrest false c hc2

theorem head_collapseSeps_true :
    ∀ l : List Char, ∀ c, (collapseSeps true l).head? = some c → isSep c = false := by
  intro l
  induction l with
  | nil =>
    intro c hc
    simp [collapseSeps] at hc
  | cons d rest ih =>
    intro c hc
    simp only [collapseSeps] at hc
    split at hc
    · exact ih c hc
    · next hns =>
      rw [List.head?_cons, Option.some_inj] at hc
      subst hc
      exact Bool.not_eq_true _ ▸ Bool.eq_false_iff.mpr hns

theorem chain_collapseSeps (b : Bool) (l : List Char) :
    List.Chain' (fun a c => ¬(a = '-' ∧ c = '-')) (collapseSeps b l) := by
  induction l generalizing b with
  | nil =>
    simp [collapseSeps]
  | cons d rest ih =>
    simp only [collapseSeps]
    split
    · split
      · exact ih true
      · rw [List.chain'_cons']
        refine ⟨?_, ih true⟩
        intro y hy hcon
        have hsep := head_collapseSeps_true rest y (Option.mem_def.mp hy)
        exact ne_hyphen_of_not_sep hsep hcon.2
    · next hns =>
      rw [List.chain'_cons']
      refine ⟨?_, ih false⟩
      intro y hy hcon
      have hd : isSep d = false := Bool.eq_false_iff.mpr hns
      exact ne_hyphen_of_not_sep hd hcon.1

theorem mem_stripEdgeHyphens {l : List Char} {c : Char} (h : c ∈ stripEdgeHyphens l) : c ∈ l := by
  unfold stripEdgeHyphens at h
  rw [List.mem_reverse] at h
  have h1 := (List.dropWhile_sublist _).subset h
  rw [List.mem_reverse] at h1
  exact (List.dropWhile_sublist _).subset h1

theorem chain_stripEdgeHyphens {l : List Char}
    (h : List.Chain' (fun a c => ¬(a = '-' ∧ c = '-')) l) :
    List.Chain' (fun a c => ¬(a = '-' ∧ c = '-')) (stripEdgeHyphens l) := by
  have hsymm : ∀ a c : Char, ¬(a = '-' ∧ c = '-') → ¬(c = '-' ∧ a = '-') :=
    fun a c hac h2 => hac ⟨h2.2, h2.1⟩
  unfold stripEdgeHyphens
  have h1 := h.suffix (List.dropWhile_suffix (fun c => c == '-'))
  have h2 := List.chain'_reverse.mpr (h1.imp hsymm)
  have h3 := h2.suffix (List.dropWhile_suffix (fun c => c == '-'))
  exact List.chain'_reverse.mpr (h3.imp hsymm)

theorem headNotHyphen_dropWhile (l : List Char) :
    headNotHyphen (l.dropWhile fun c => c == '-') = true := by
  unfold headNotHyphen
  have h := List.head?_dropWhile_not (fun c => c == '-') l
  cases hh : (l.dropWhile fun c => c == '-').head? with
  | none => rfl
  | some x =>
    rw [hh] at h
    simp [bne, h]

theorem trailing_stripEdgeHyphens (l : List Char) :
    headNotHyphen (stripEdgeHyphens l).reverse = true := by
  unfold stripEdgeHyphens
  rw [List.reverse_reverse]
  exact headNotHyphen_dropWhile _

theorem leading_stripEdgeHyphens (l : List Char) :
    headNotHyphen (stripEdgeHyphens l) = true := by
  unfold stripEdgeHyphens headNotHyphen
  cases hh : (((l.dropWhile fun c => c == '-').reverse.dropWhile fun c => c == '-')).reverse.head? with
  | none => rfl
  | some y =>
    rw [List.head?_reverse] at hh
    obtain ⟨t, ht⟩ := List.dropWhile_suffix (l := (l.dropWhile fun c => c == '-').reverse)
      (fun c => c == '-')
    have h2 : ((l.dropWhile fun c => c == '-').reverse).getLast? = some y := by
      rw [← ht, List.getLast?_append, hh, Option.or_some]
    rw [List.getLast?_reverse] at h2
    have h3 := List.head?_dropWhile_not (fun c => c == '-') l
    rw [h2] at h3
    simp [bne, h3]

theorem noAdjHyphens_iff : ∀ l : List Char,
    noAdjHyphens l = true ↔ List.Chain' (fun a c => ¬(a = '-' ∧ c = '-')) l
  | [] => by simp [noAdjHyphens]
  | [a] => by simp [noAdjHyphens]
  | a :: b :: rest => by
    rw [noAdjHyphens, List.chain'_cons, Bool.and_eq_true, noAdjHyphens_iff (b :: rest)]
    apply and_congr_left
    intro _
    constructor
    · intro h hcon
      rw [hcon.1, hcon.2] at h
      simp at h
    · intro h
      by_cases ha : a = '-'
      · by_cases hb : b = '-'
        · exact absurd ⟨ha, hb⟩ h
        · have hbb : (b == '-') = false := by simp [hb]
          simp [hbb]
      · have haa : (a == '-') = false := by simp [ha]
        simp [haa]

theorem urlSafe_slugifyChars (l : List Char) : urlSafe (slugifyChars l) = true := by
  unfold urlSafe slugifyChars
  rw [Bool.and_eq_true, Bool.and_eq_true, Bool.and_eq_true]
  refine ⟨⟨⟨?_, ?_⟩, ?_⟩, ?_⟩
  · rw [List.all_eq_true]
    intro x hx
    have hx2 := mem_stripEdgeHyphens hx
    exact mem_collapseSeps (fun c hc => filtered_slug_or_sep hc) false x hx2
  · exact leading_stripEdgeHyphens _
  · exact trailing_stripEdgeHyphens _
  · exact (noAdjHyphens_iff _).mpr (chain_stripEdgeHyphens (chain_collapseSeps false _))
/-! ## Lemmas about the posts table operations -/

theorem mem_insertDescBy {key : Nat × Post → Nat} {x e : Nat × Post} :
    ∀ {l : List (Nat × Post)}, x ∈ insertDescBy key e l ↔ x = e ∨ x ∈ l
  | [] => by simp [insertDescBy]
  | y :: ys => by
    rw [insertDescBy]
    split
    · simp [List.mem_cons]
    · rw [List.mem_cons, mem_insertDescBy (l := ys), List.mem_cons]
      tauto

theorem mem_sortDescBy {key : Nat × Post → Nat} {x : Nat × Post} :
    ∀ {l : List (Nat × Post)}, x ∈ sortDescBy key l ↔ x ∈ l
  | [] => by simp [sortDescBy]
  | y :: ys => by
    have ih : x ∈ sortDescBy key ys ↔ x ∈ ys := mem_sortDescBy (l := ys)
    simp only [sortDescBy, List.foldr_cons] at ih ⊢
    rw [mem_insertDescBy, ih, List.mem_cons]

theorem mem_listPublished {db : DB} {limit : Option Nat} {x : PostSummary}
    (h : x ∈ listPublished db limit) :
    ∃ e ∈ db.posts, e.2.published = true ∧ x = summarize e := by
  unfold listPublished at h
  rw [List.mem_map] at h
  obtain ⟨e, he, hx⟩ := h
  have he2 := List.take_subset _ _ he
  rw [sortByPublishedAtDesc, mem_sortDescBy, List.mem_filter] at he2
  exact ⟨e, he2.1, he2.2, hx.symm⟩

theorem mem_listAll_page {db : DB} {opts : PaginationOpts} {e : Nat × Post}
    (h : e ∈ (listAll db opts).page) : e ∈ db.posts := by
  have h2 : e ∈ ((sortByCreatedAtDesc db.posts).drop (opts.cursor.getD 0)).take opts.numItems := h
  have h3 := List.drop_subset _ _ (List.take_subset _ _ h2)
  rwa [sortByCreatedAtDesc, mem_sortDescBy] at h3

theorem getBySlug_mem {db : DB} {s : String} {e : Nat × Post}
    (h : getBySlug db s = some e) : e ∈ db.posts := by
  rw [getBySlug] at h
  cases hf : db.posts.find? fun x => x.2.slug == s with
  | none =>
    rw [hf] at h
    cases h
  | some f =>
    rw [hf] at h
    have h2 : (if f.2.published then some f else none) = some e := h
    by_cases hp : f.2.published = true
    · rw [if_pos hp, Option.some_inj] at h2
      rw [← h2]
      exact List.mem_of_find?_eq_some hf
    · rw [if_neg hp] at h2
      cases h2

/-- C1: for every table state that already contains a post with the slug of
the arguments, posts.create throws the error with message
"A post with this slug already exists" and inserts no new post (the table is
unchanged). -/
theorem create_duplicate_slug_rejected (db : DB) (a : CreateArgs) (now : Nat)
    (h : ∃ e ∈ db.posts, e.2.slug = a.slug) :
    create db a now = .error "A post with this slug already exists" ∧
      applyOp db (.create a now) = db := by
  have hex : slugExists db a.slug none = true := by
    rw [slugExists]
    obtain ⟨e, he, hs⟩ := h
    cases hf : db.posts.find? fun x => x.2.slug == a.slug with
    | none =>
      rw [List.find?_eq_none] at hf
      exact absurd (by simp [hs]) (hf e he)
    | some f => rfl
  have hcr : create db a now = .error "A post with this slug already exists" := by
    rw [create, if_pos hex]
  exact ⟨hcr, by simp only [applyOp, hcr]⟩

theorem create_duplicate_slug_rejected_witness :
    create dbTwo (cArgs "a" true) 9 = .error "A post with this slug already exists" ∧
      applyOp dbTwo (.create (cArgs "a" true) 9) = dbTwo :=
  create_duplicate_slug_rejected dbTwo (cArgs "a" true) 9 (by decide)

/-- C4: every element returned by posts.listPublished is the listing summary
of a stored post whose published field is true, for every table state and
limit. -/
theorem listPublished_only_published (db : DB) (limit : Option Nat) (x : PostSummary)
    (h : x ∈ listPublished db limit) :
    ∃ e ∈ db.posts, e.2.published = true ∧ x = summarize e :=
  mem_listPublished h

theorem listPublished_only_published_witness :
    ∃ e ∈ dbTwo.posts, e.2.published = true ∧
      summarize (0, newPost (cArgs "a" true) 1) = summarize e :=
  listPublished_only_published dbTwo (some 5) (summarize (0, newPost (cArgs "a" true) 1))
    (by decide)

/-- C6: posts.update called with an id that refers to no existing post throws
the error with message "Post not found" and leaves the posts table
unchanged. -/
theorem update_unknown_id_not_found (db : DB) (a : UpdateArgs) (now : Nat)
    (h : getById db a.id = none) :
    update db a now = .error "Post not found" ∧ applyOp db (.update a now) = db := by
  have hu : update db a now = .error "Post not found" := by
    rw [update, h]
  exact ⟨hu, by simp only [applyOp, hu]⟩

theorem update_unknown_id_not_found_witness :
    update dbTwo (uArgsPub 5 true) 7 = .error "Post not found" ∧
      applyOp dbTwo (.update (uArgsPub 5 true) 7) = dbTwo :=
  update_unknown_id_not_found dbTwo (uArgsPub 5 true) 7 (by decide)

/-- C5: after posts.remove on an id, no result of posts.listPublished,
posts.listAll, posts.getBySlug or posts.getById contains a post with that
id. -/
theorem remove_clears_listings (db : DB) (i : Nat) :
    (∀ lim x, x ∈ listPublished (remove db i) lim → x.id ≠ i) ∧
    (∀ opts e, e ∈ (listAll (remove db i) opts).page → e.1 ≠ i) ∧
    (∀ s e, getBySlug (remove db i) s = some e → e.1 ≠ i) ∧
    getById (remove db i) i = none := by
  have hmem : ∀ e ∈ (remove db i).posts, e.1 ≠ i := by
    intro e he
    have he2 : e ∈ db.posts.filter fun x => x.1 != i := he
    rw [List.mem_filter] at he2
    simpa using he2.2
  refine ⟨?_, ?_, ?_, ?_⟩
  · intro lim x hx
    obtain ⟨e, he, _, hxe⟩ := mem_listPublished hx
    rw [hxe]
    exact hmem e he
  · intro opts e he
    exact hmem e (mem_listAll_page he)
  · intro s e he
    exact hmem e (getBySlug_mem he)
  · rw [getById, List.find?_eq_none]
    intro e he
    simpa using hmem e he

theorem remove_clears_listings_witness :
    (1 : Nat) ≠ 0 ∧ getById (remove dbTwo 0) 0 = none :=
  ⟨(remove_clears_listings dbTwo 0).2.1 ⟨5, none⟩ (1, newPost (cArgs "b" false) 2) (by decide),
   (remove_clears_listings dbTwo 0).2.2.2⟩

/-! ## The slug-uniqueness invariant -/

theorem nodup_ifmap (i : Nat) (s : String) :
    ∀ posts : List (Nat × Post),
      (posts.map (·.1)).Nodup →
      (posts.map (·.2.slug)).Nodup →
      (∀ e ∈ posts, e.1 ≠ i → e.2.slug ≠ s) →
      (posts.map fun e => if e.1 = i then s else e.2.slug).Nodup
  | [], _, _, _ => List.nodup_nil
  | e :: rest, hids, hslugs, hno => by
    rw [List.map_cons, List.nodup_cons] at hids hslugs ⊢
    obtain ⟨hid1, hids2⟩ := hids
    obtain ⟨hsl1, hsl2⟩ := hslugs
    have hnorest : ∀ x ∈ rest, x.1 ≠ i → x.2.slug ≠ s :=
      fun x hx => hno x (List.mem_cons_of_mem _ hx)
    have ih := nodup_ifmap i s rest hids2 hsl2 hnorest
    by_cases he : e.1 = i
    · rw [if_pos he]
      have hrid : ∀ x ∈ rest, x.1 ≠ i := by
        intro x hx hxi
        apply hid1
        rw [he, ← hxi]
        exact List.mem_map_of_mem _ hx
      have hmapeq : (rest.map fun x => if x.1 = i then s else x.2.slug) =
          rest.map (·.2.slug) := by
        apply List.map_congr_left
        intro x hx
        rw [if_neg (hrid x hx)]
      refine ⟨?_, ih⟩
      rw [hmapeq, List.mem_map]
      rintro ⟨x, hx, hxs⟩
      exact hnorest x hx (hrid x hx) hxs
    · rw [if_neg he]
      refine ⟨?_, ih⟩
      rw [List.mem_map]
      rintro ⟨x, hx, hxs⟩
      by_cases hxi : x.1 = i
      · rw [if_pos hxi] at hxs
        exact hno e (List.mem_cons_self _ _) he hxs.symm
      · rw [if_neg hxi] at hxs
        exact hsl1 (hxs ▸ List.mem_map_of_mem _ hx)

theorem find?_eq_of_mem_nodup :
    ∀ {l : List (Nat × Post)} {e : Nat × Post} {i : Nat},
      (l.map (·.1)).Nodup → e ∈ l → e.1 = i → l.find? (fun x => x.1 == i) = some e := by
  intro l
  induction l with
  | nil =>
    intro e i _ he
    cases he
  | cons x rest ih =>
    intro e i hnd he hei
    rw [List.map_cons, List.nodup_cons] at hnd
    rw [List.find?_cons]
    cases hx : (x.1 == i) with
    | true =>
      rcases List.mem_cons.mp he with rfl | hr
      · rfl
      · exfalso
        have hxi : x.1 = i := by simpa using hx
        apply hnd.1
        rw [hxi, ← hei]
        exact List.mem_map_of_mem _ hr
    | false =>
      rcases List.mem_cons.mp he with rfl | hr
      · exfalso
        rw [hei] at hx
        simp at hx
      · exact ih hnd.2 hr hei

theorem slugExists_none_eq_false_iff (db : DB) (s : String) :
    slugExists db s none = false ↔ ∀ e ∈ db.posts, e.2.slug ≠ s := by
  rw [slugExists]
  cases hf : db.posts.find? fun e => e.2.slug == s with
  | none =>
    constructor
    · intro _ e he hs
      rw [List.find?_eq_none] at hf
      exact hf e he (by simp [hs])
    · intro _
      rfl
  | some f =>
    constructor
    · intro h
      exact absurd h (by simp)
    · intro hall
      exfalso
      have hfs := List.find?_some hf
      have hmem := List.mem_of_find?_eq_some hf
      exact hall f hmem (by simpa using hfs)

theorem inv_insertPost (db : DB) (a : CreateArgs) (now : Nat)
    (h : Inv db) (hex : slugExists db a.slug none = false) : Inv (insertPost db a now) := by
  obtain ⟨hids, hlt, hslugs⟩ := h
  have hnos := (slugExists_none_eq_false_iff db a.slug).mp hex
  unfold insertPost Inv
  simp only [List.map_append, List.map_cons, List.map_nil]
  refine ⟨?_, ?_, ?_⟩
  · rw [List.nodup_append]
    refine ⟨hids, List.nodup_singleton _, ?_⟩
    intro x hx hx2
    rw [List.mem_singleton] at hx2
    rw [List.mem_map] at hx
    obtain ⟨e, he, hxe⟩ := hx
    exact absurd (hxe ▸ hx2 ▸ hlt e he) (lt_irrefl _)
  · intro e he
    rcases List.mem_append.mp he with he1 | he2
    · exact Nat.lt_succ_of_lt (hlt e he1)
    · rw [List.mem_singleton] at he2
      rw [he2]
      exact Nat.lt_succ_self _
  · rw [List.nodup_append]
    refine ⟨hslugs, List.nodup_singleton _, ?_⟩
    intro x hx hx2
    rw [List.mem_singleton] at hx2
    rw [List.mem_map] at hx
    obtain ⟨e, he, hxe⟩ := hx
    exact hnos e he (hxe ▸ hx2)

theorem inv_update_ok (db : DB) (a : UpdateArgs) (now : Nat) (ex : Nat × Post)
    (h : Inv db) (hex : getById db a.id = some ex)
    (hchk : slugCheckFails db a ex = false) (hgood : a.slug ≠ some "") :
    Inv ⟨db.posts.map fun e =>
           if e.1 == a.id then (e.1, patchPost e.2 a (publishesNow a ex.2) now) else e,
         db.nextId⟩ := by
  obtain ⟨hids, hlt, hslugs⟩ := h
  have hkey : ∀ e : Nat × Post,
      ((if e.1 == a.id then (e.1, patchPost e.2 a (publishesNow a ex.2) now) else e) :
        Nat × Post).1 = e.1 := by
    intro e
    split <;> rfl
  unfold Inv
  refine ⟨?_, ?_, ?_⟩
  · have hidseq : ((db.posts.map fun e =>
        if e.1 == a.id then (e.1, patchPost e.2 a (publishesNow a ex.2) now) else e).map
          (·.1)) = db.posts.map (·.1) := by
      rw [List.map_map]
      apply List.map_congr_left
      intro e _
      exact hkey e
    rw [hidseq]
    exact hids
  · intro e he
    rw [List.mem_map] at he
    obtain ⟨x, hx, hxe⟩ := he
    have hx1 : e.1 = x.1 := by
      rw [← hxe]
      exact hkey x
    rw [hx1]
    exact hlt x hx
  · have hsleq : ((db.posts.map fun e =>
        if e.1 == a.id then (e.1, patchPost e.2 a (publishesNow a ex.2) now) else e).map
          (·.2.slug)) =
        db.posts.map fun e => if e.1 = a.id then a.slug.getD e.2.slug else e.2.slug := by
      rw [List.map_map]
      apply List.map_congr_left
      intro e _
      by_cases he : e.1 = a.id
      · have hb : (e.1 == a.id) = true := by simpa using he
        simp only [Function.comp_apply, hb, if_true, if_pos he]
        rfl
      · have hb : (e.1 == a.id) = false := by simpa using he
        simp only [Function.comp_apply, hb, Bool.false_eq_true, if_false, if_neg he]
    rw [hsleq]
    cases hslug : a.slug with
    | none =>
      have heq : (db.posts.map fun e =>
          if e.1 = a.id then (none : Option String).getD e.2.slug else e.2.slug) =
          db.posts.map (·.2.slug) := by
        apply List.map_congr_left
        intro e _
        split <;> rfl
      rw [heq]
      exact hslugs
    | some s =>
      by_cases hse : s = ex.2.slug
      · have heq : (db.posts.map fun e =>
            if e.1 = a.id then (some s).getD e.2.slug else e.2.slug) =
            db.posts.map (·.2.slug) := by
          apply List.map_congr_left
          intro e he
          by_cases hei : e.1 = a.id
          · rw [if_pos hei]
            have hfeq := find?_eq_of_mem_nodup hids he hei
            rw [getById] at hex
            have hee : e = ex := Option.some_inj.mp (hfeq.symm.trans hex)
            show s = e.2.slug
            rw [hse, hee]
          · rw [if_neg hei]
        rw [heq]
        exact hslugs
      · have hnem : ¬ s = "" := by
          intro hcon
          apply hgood
          rw [hslug, hcon]
        have hexf : slugExists db s (some a.id) = false := by
          rw [slugCheckFails, hslug] at hchk
          simpa [hnem, hse] using hchk
        have hno : ∀ e ∈ db.posts, e.1 ≠ a.id → e.2.slug ≠ s := by
          intro e he hne hs2
          cases hf2 : db.posts.find? fun x => x.2.slug == s with
          | none =>
            rw [List.find?_eq_none] at hf2
            exact hf2 e he (by simp [hs2])
          | some f =>
            rw [slugExists, hf2] at hexf
            have hexf2 : (!(f.1 == a.id)) = false := hexf
            have hfa : f.1 = a.id := by simpa using hexf2
            have hfm := List.mem_of_find?_eq_some hf2
            have hfind := find?_eq_of_mem_nodup hids hfm hfa
            rw [getById] at hex
            have hfe : f = ex := Option.some_inj.mp (hfind.symm.trans hex)
            have hfs : f.2.slug = s := by simpa using List.find?_some hf2
            have : ex.2.slug = s := by
              rw [← hfe]
              exact hfs
            exact hse this.symm
        exact nodup_ifmap a.id s db.posts hids hslugs hno

theorem inv_remove_ok (db : DB) (i : Nat) (h : Inv db) : Inv (remove db i) := by
  obtain ⟨hids, hlt, hslugs⟩ := h
  unfold remove Inv
  refine ⟨?_, ?_, ?_⟩
  · exact hids.sublist ((List.filter_sublist _).map _)
  · intro e he
    exact hlt e ((List.filter_sublist _).subset he)
  · exact hslugs.sublist ((List.filter_sublist _).map _)

theorem inv_applyOp (db : DB) (op : Op) (h : Inv db)
    (hgood : noEmptySlugUpdate op = true) : Inv (applyOp db op) := by
  cases op with
  | create a now =>
    by_cases hex : slugExists db a.slug none = true
    · have hstep : applyOp db (.create a now) = db := by
        simp only [applyOp, create, if_pos hex]
      rw [hstep]
      exact h
    · have hex2 : slugExists db a.slug none = false := Bool.eq_false_iff.mpr hex
      have hstep : applyOp db (.create a now) = insertPost db a now := by
        simp only [applyOp, create, if_neg hex]
      rw [hstep]
      exact inv_insertPost db a now h hex2
  | update a now =>
    have hg : (!(a.slug == some "")) = true := hgood
    have hgood2 : a.slug ≠ some "" := by
      intro hcon
      rw [hcon] at hg
      simp at hg
    cases hf : getById db a.id with
    | none =>
      have hstep : applyOp db (.update a now) = db := by
        simp only [applyOp, update, hf]
      rw [hstep]
      exact h
    | some ex =>
      by_cases hchk : slugCheckFails db a ex = true
      · have hstep : applyOp db (.update a now) = db := by
          simp only [applyOp, update, hf, if_pos hchk]
        rw [hstep]
        exact h
      · have hchk2 := Bool.eq_false_iff.mpr hchk
        have hstep : applyOp db (.update a now) =
            ⟨db.posts.map fun e =>
               if e.1 == a.id then (e.1, patchPost e.2 a (publishesNow a ex.2) now) else e,
             db.nextId⟩ := by
          simp only [applyOp, update, hf, if_neg hchk]
        rw [hstep]
        exact inv_update_ok db a now ex h hf hchk2 hgood2
  | remove i =>
    exact inv_remove_ok db i h

theorem inv_foldl (ops : List Op) :
    ∀ db, Inv db → (∀ op ∈ ops, noEmptySlugUpdate op = true) →
      Inv (ops.foldl applyOp db) := by
  induction ops with
  | nil => exact fun db h _ => h
  | cons op rest ih =>
    intro db h hgood
    rw [List.foldl_cons]
    exact ih _ (inv_applyOp db op h (hgood op (List.mem_cons_self _ _)))
      (fun o ho => hgood o (List.mem_cons_of_mem _ ho))

theorem inv_run (ops : List Op) (hgood : ∀ op ∈ ops, noEmptySlugUpdate op = true) :
    Inv (run ops) :=
  inv_foldl ops emptyDB
    ⟨List.nodup_nil, fun e he => absurd he (List.not_mem_nil e), List.nodup_nil⟩ hgood

/-- C2 counterexample: a history whose last update writes the empty-string
slug reaches a table with two posts of the same slug, because the guard
updates.slug && updates.slug !== existingPost.slug is falsy for the empty
string while the patch still writes it. -/
theorem empty_slug_update_breaks_uniqueness :
    ((run opsDupSlug).posts.map fun e => e.2.slug) = ["", ""] ∧
    ¬ ((run opsDupSlug).posts.map fun e => e.2.slug).Nodup :=
  ⟨by decide, by decide⟩

/-- C2 (amended): in every state reachable from the empty posts table by a
sequential history of posts.create, posts.update and posts.remove calls in
which no update supplies the empty string as its slug argument, no two posts
have the same slug. -/
theorem slug_uniqueness_invariant (ops : List Op)
    (h : ∀ op ∈ ops, noEmptySlugUpdate op = true) :
    ((run ops).posts.map fun e => e.2.slug).Nodup :=
  (inv_run ops h).2.2

theorem slug_uniqueness_invariant_witness :
    ((run opsGood).posts.map fun e => e.2.slug).Nodup :=
  slug_uniqueness_invariant opsGood (by decide)

/-! ## The publication timestamp -/

theorem find?_map_keyed (g : Nat × Post → Nat × Post) (hg : ∀ e, (g e).1 = e.1) (i : Nat)
    (l : List (Nat × Post)) :
    (l.map g).find? (fun e => e.1 == i) = (l.find? fun e => e.1 == i).map g := by
  induction l with
  | nil => rfl
  | cons e rest ih =>
    rw [List.map_cons, List.find?_cons, List.find?_cons, hg e]
    cases he : (e.1 == i) with
    | false => exact ih
    | true => rfl

theorem update_ok_spec (db : DB) (a : UpdateArgs) (now : Nat) (db2 : DB) (r : Nat)
    (h : update db a now = .ok (db2, r)) :
    ∃ ex, getById db a.id = some ex ∧ slugCheckFails db a ex = false ∧
      db2.posts = db.posts.map fun e =>
        if e.1 == a.id then (e.1, patchPost e.2 a (publishesNow a ex.2) now) else e := by
  rw [update] at h
  cases hf : getById db a.id with
  | none =>
    rw [hf] at h
    cases h
  | some ex =>
    rw [hf] at h
    have h2 : (if slugCheckFails db a ex
        then (Except.error "A post with this slug already exists" : Except String (DB × Nat))
        else .ok (⟨db.posts.map fun e =>
            if e.1 == a.id then (e.1, patchPost e.2 a (publishesNow a ex.2) now) else e,
          db.nextId⟩, a.id)) = .ok (db2, r) := h
    by_cases hchk : slugCheckFails db a ex = true
    · rw [if_pos hchk] at h2
      cases h2
    · rw [if_neg hchk] at h2
      rw [Except.ok.injEq, Prod.mk.injEq] at h2
      refine ⟨ex, rfl, Bool.eq_false_iff.mpr hchk, ?_⟩
      rw [← h2.1]

theorem create_publishes_now (db : DB) (a : CreateArgs) (now : Nat) (db2 : DB) (i : Nat)
    (hok : create db a now = .ok (db2, i)) (hpub : a.published = true) :
    ∃ p, db2.posts = db.posts ++ [(i, p)] ∧ p.publishedAt = some now := by
  rw [create] at hok
  by_cases hex : slugExists db a.slug none = true
  · rw [if_pos hex] at hok
    cases hok
  · rw [if_neg hex] at hok
    rw [Except.ok.injEq, Prod.mk.injEq] at hok
    obtain ⟨hdb, hi⟩ := hok
    refine ⟨newPost a now, ?_, ?_⟩
    · rw [← hdb, ← hi]
      rfl
    · simp [newPost, hpub]

theorem update_publishes_again (db : DB) (a : UpdateArgs) (now : Nat) (db2 : DB) (r : Nat)
    (ex : Nat × Post) (hex : getById db a.id = some ex) (hunpub : ex.2.published = false)
    (hpub : a.published = some true) (h : update db a now = .ok (db2, r)) :
    (getById db2 a.id).map (fun e => e.2.publishedAt) = some (some now) := by
  obtain ⟨ex2, hex2, _, hdb2⟩ := update_ok_spec db a now db2 r h
  have hee : ex2 = ex := Option.some_inj.mp (hex2.symm.trans hex)
  rw [hee] at hdb2
  rw [getById, hdb2, find?_map_keyed _ (fun e => by split <;> rfl) a.id]
  rw [getById] at hex
  rw [hex]
  have hkey0 := List.find?_some hex
  have hkey : (ex.1 == a.id) = true := hkey0
  show some ((if (ex.1 == a.id) = true
      then (ex.1, patchPost ex.2 a (publishesNow a ex.2) now) else ex).2.publishedAt) =
      some (some now)
  rw [if_pos hkey]
  have hpn : publishesNow a ex.2 = true := by
    rw [publishesNow, hpub, hunpub]
    rfl
  simp [patchPost, hpn]

theorem update_keeps_publishedAt (db : DB) (a : UpdateArgs) (now : Nat) (db2 : DB) (r : Nat)
    (ex : Nat × Post) (hex : getById db a.id = some ex)
    (hnp : publishesNow a ex.2 = false) (h : update db a now = .ok (db2, r)) :
    (getById db2 a.id).map (fun e => e.2.publishedAt) = some ex.2.publishedAt := by
  obtain ⟨ex2, hex2, _, hdb2⟩ := update_ok_spec db a now db2 r h
  have hee : ex2 = ex := Option.some_inj.mp (hex2.symm.trans hex)
  rw [hee] at hdb2
  rw [getById, hdb2, find?_map_keyed _ (fun e => by split <;> rfl) a.id]
  rw [getById] at hex
  rw [hex]
  have hkey0 := List.find?_some hex
  have hkey : (ex.1 == a.id) = true := hkey0
  show some ((if (ex.1 == a.id) = true
      then (ex.1, patchPost ex.2 a (publishesNow a ex.2) now) else ex).2.publishedAt) =
      some ex.2.publishedAt
  rw [if_pos hkey]
  simp [patchPost, hnp]

theorem update_other_posts_unchanged (db : DB) (a : UpdateArgs) (now : Nat) (db2 : DB)
    (r : Nat) (h : update db a now = .ok (db2, r)) (j : Nat) (hj : j ≠ a.id) :
    getById db2 j = getById db j := by
  obtain ⟨ex, hex, _, hdb2⟩ := update_ok_spec db a now db2 r h
  rw [getById, hdb2, find?_map_keyed _ (fun e => by split <;> rfl) j, getById]
  cases hf : db.posts.find? fun e => e.1 == j with
  | none => rfl
  | some f =>
    have hkey0 := List.find?_some hf
    have hkey : (f.1 == j) = true := hkey0
    have hfj : f.1 = j := by simpa using hkey
    have hna : (f.1 == a.id) = false := by simp [hfj, hj]
    show some (if (f.1 == a.id) = true
        then (f.1, patchPost f.2 a (publishesNow a ex.2) now) else f) = some f
    simp [hna]

/-- C3 counterexample: post 0 is unpublished with its publication timestamp
already set to 1; the posts.update that publishes it again at time 5 sets
publishedAt once more, to 5, so the timestamp is not set exactly once. -/
theorem republish_sets_timestamp_again :
    (getById dbRepub 0).map (fun e => e.2.publishedAt) = some (some 1) ∧
    (getById dbRepub 0).map (fun e => e.2.published) = some false ∧
    (match update dbRepub (uArgsPub 0 true) 5 with
      | .ok (db2, _) => (getById db2 0).map fun e => e.2.publishedAt
      | .error _ => none) = some (some 5) ∧
    some (some (5 : Nat)) ≠ some (some (1 : Nat)) :=
  ⟨by decide, by decide, by decide, by decide⟩

/-- C3 (amended): every transition of a post from unpublished to published
sets publishedAt to the current time (a posts.create that publishes, and
every posts.update that publishes an unpublished post, also after an
unpublish), an update that makes no such transition leaves the publication
timestamp of its post unchanged, and an update never touches other posts. -/
theorem publishedAt_set_on_each_publish :
    (∀ db a now db2 i, create db a now = .ok (db2, i) → a.published = true →
      ∃ p, db2.posts = db.posts ++ [(i, p)] ∧ p.publishedAt = some now) ∧
    (∀ db a now db2 r ex, getById db a.id = some ex → ex.2.published = false →
      a.published = some true → update db a now = .ok (db2, r) →
      (getById db2 a.id).map (fun e => e.2.publishedAt) = some (some now)) ∧
    (∀ db a now db2 r ex, getById db a.id = some ex → publishesNow a ex.2 = false →
      update db a now = .ok (db2, r) →
      (getById db2 a.id).map (fun e => e.2.publishedAt) = some ex.2.publishedAt) ∧
    (∀ db a now db2 r j, update db a now = .ok (db2, r) → j ≠ a.id →
      getById db2 j = getById db j) :=
  ⟨fun db a now db2 i hok hpub => create_publishes_now db a now db2 i hok hpub,
   fun db a now db2 r ex hex hunpub hpub h =>
     update_publishes_again db a now db2 r ex hex hunpub hpub h,
   fun db a now db2 r ex hex hnp h => update_keeps_publishedAt db a now db2 r ex hex hnp h,
   fun db a now db2 r j h hj => update_other_posts_unchanged db a now db2 r h j hj⟩

theorem publishedAt_set_on_each_publish_witness :
    (∃ p, dbPub.posts = emptyDB.posts ++ [(0, p)] ∧ p.publishedAt = some 1) ∧
    (getById dbDraftPub 0).map (fun e => e.2.publishedAt) = some (some 4) ∧
    (getById dbRepub 0).map (fun e => e.2.publishedAt) =
      some (0, newPost (cArgs "s" true) 1).2.publishedAt ∧
    getById dbDraftPub 1 = getById dbDraft 1 :=
  ⟨publishedAt_set_on_each_publish.1 emptyDB (cArgs "s" true) 1 dbPub 0 (by decide) rfl,
   publishedAt_set_on_each_publish.2.1 dbDraft (uArgsPub 0 true) 4 dbDraftPub 0
     (0, newPost (cArgs "s" false) 1) (by decide) (by decide) rfl (by decide),
   publishedAt_set_on_each_publish.2.2.1 dbPub (uArgsPub 0 false) 3 dbRepub 0
     (0, newPost (cArgs "s" true) 1) (by decide) (by decide) (by decide),
   publishedAt_set_on_each_publish.2.2.2 dbDraft (uArgsPub 0 true) 4 dbDraftPub 0 1
     (by decide) (by decide)⟩

/-! ## The remaining claims -/

/-- C7: for every input string, the output of the admin editors slugify
function consists only of lowercase ASCII letters, digits and hyphens, with no
leading hyphen, no trailing hyphen, and no two consecutive hyphens. -/
theorem slugify_produces_url_safe (s : String) : urlSafe (slugify s).data = true :=
  urlSafe_slugifyChars s.data

/-- C8: there is an interleaving of two concurrent posts.create calls with the
same slug in which both calls pass the slug-existence check and both insert,
leaving two posts with that slug in the table. -/
theorem concurrent_create_breaks_slug_uniqueness :
    ∃ (sched : List CAction) (a1 a2 : CreateArgs) (s : String),
      a1.slug = s ∧ a2.slug = s ∧
      (runConcurrent a1 a2 7 emptyDB sched).ok1 = true ∧
      (runConcurrent a1 a2 7 emptyDB sched).ok2 = true ∧
      ((runConcurrent a1 a2 7 emptyDB sched).db.posts.filter
        fun e => e.2.slug == s).length = 2 := by
  refine ⟨[.check1, .check2, .insert1, .insert2], cArgs "x" true, cArgs "x" true, "x",
    rfl, rfl, ?_, ?_, ?_⟩ <;> decide

end SvelteConvex
